import Mathlib

/-
Shallow embedding of src/app.py (a Streamlit news-search pipeline).
Strings are modelled as List Char.  Python functions of app.py are
translated one by one; the two hidden runtime dependencies of the source
(datetime.now in parse_date_and_normalize, the HTTP fetcher in
scrape_lavoz_recursive) are made explicit parameters.
-/

namespace Lavoz

/-- Python whitespace for str.strip, str.split and the regex class \s
(ASCII range; the inputs of this pipeline are handled by these). -/
def isSpaceC (c : Char) : Bool :=
  c == ' ' || c == '\t' || c == '\n' || c == '\r' || c == '\x0b' || c == '\x0c'

/-- Regex class \d, a decimal digit 0-9. -/
def isDigitC (c : Char) : Bool :=
  c.isDigit

/-- Regex class \w, a word character (ASCII letters, digits, underscore;
the month names of the source dictionary are all ASCII). -/
def isWordC (c : Char) : Bool :=
  c.isAlphanum || c == '_'

/-- Python str.lower, character by character (ASCII; all dictionary keys
of the source are ASCII). -/
def lowerC (c : Char) : Char :=
  c.toLower

/-- Python str.strip: drop leading and trailing whitespace. -/
def pyStrip (l : List Char) : List Char :=
  ((l.dropWhile isSpaceC).reverse.dropWhile isSpaceC).reverse

/-- Helper for pySplit: accumulate the current word (reversed) while
scanning. -/
def pySplitAux : List Char → List Char → List (List Char)
  | [], acc => if acc.isEmpty then [] else [acc.reverse]
  | c :: t, acc =>
    if isSpaceC c then
      if acc.isEmpty then pySplitAux t [] else acc.reverse :: pySplitAux t []
    else
      pySplitAux t (c :: acc)

/-- Python str.split with no argument: split on runs of whitespace,
without empty tokens. -/
def pySplit (l : List Char) : List (List Char) :=
  pySplitAux l []

/-- Python int on a string of decimal digits. -/
def digitsToNat (l : List Char) : Nat :=
  l.foldl (fun n c => 10 * n + (c.toNat - '0'.toNat)) 0

/-- Decimal digits of n, zero-padded on the left to width w (the Python
format specifier 0wd). -/
def pad (w n : Nat) : List Char :=
  let ds := Nat.toDigits 10 n
  List.replicate (w - ds.length) '0' ++ ds

/-- A calendar date as the triple of numeric fields that the Python date
and pandas Timestamp objects expose (year, month, day). -/
structure CalDate where
  year : Nat
  month : Nat
  day : Nat
deriving DecidableEq

/-- Gregorian leap-year rule. -/
def isLeapYear (y : Nat) : Bool :=
  (y % 4 == 0 && y % 100 != 0) || y % 400 == 0

/-- Number of days of month m in year y. -/
def daysInMonth (y m : Nat) : Nat :=
  if m = 2 then (if isLeapYear y then 29 else 28)
  else if m = 4 ∨ m = 6 ∨ m = 9 ∨ m = 11 then 30
  else 31

/-- Real calendar validity of a year-month-day triple. -/
def isValidDate (y m d : Nat) : Bool :=
  if 1 ≤ m ∧ m ≤ 12 ∧ 1 ≤ d ∧ d ≤ daysInMonth y m then true else false

/-- Python strftime with format %Y-%m-%d. -/
def fmtYMD (d : CalDate) : List Char :=
  pad 4 d.year ++ '-' :: pad 2 d.month ++ '-' :: pad 2 d.day

/-- Python strftime with format %Y-%m. -/
def fmtYM (y m : Nat) : List Char :=
  pad 4 y ++ '-' :: pad 2 m

/-- The f-string of app.py line 80: year unpadded, month and day padded
to two digits. -/
def fmtGroups (day m year : Nat) : List Char :=
  Nat.toDigits 10 year ++ '-' :: pad 2 m ++ '-' :: pad 2 day

/-- The spanish_months dictionary of parse_date_and_normalize
(app.py lines 68-71). -/
def spanish_months : List (List Char × Nat) :=
  [("enero".toList, 1), ("febrero".toList, 2), ("marzo".toList, 3),
   ("abril".toList, 4), ("mayo".toList, 5), ("junio".toList, 6),
   ("julio".toList, 7), ("agosto".toList, 8), ("septiembre".toList, 9),
   ("octubre".toList, 10), ("noviembre".toList, 11), ("diciembre".toList, 12)]

/-- Python dict.get on spanish_months. -/
def lookupMonth (k : List Char) : Option Nat :=
  (spanish_months.find? (fun p => p.1 == k)).map Prod.snd

/-
The regex of app.py line 72 over the stripped input, with re.IGNORECASE:

  (\d+)\s+de\s+(\w+)\s+de\s+(\d{4})

Every quantified atom of the pattern (\d+, \s+, \w+) is followed either by
a literal of a disjoint character class or by a disjoint class, so greedy
matching with backtracking coincides with deterministic maximal munch:
whenever the maximal run fails, every shorter run is followed by a
character of the same class and fails as well.  matchFrom is therefore an
exact model of an anchored match attempt, and reSearchDate of re.search
(leftmost start wins).
-/

/-- Model of one anchored attempt of the date regex, returning the three
groups (day digits, month word, the four year digits). -/
def matchFrom (l : List Char) : Option (List Char × List Char × List Char) :=
  let ds := l.takeWhile isDigitC
  let r1 := l.dropWhile isDigitC
  if ds.isEmpty then none else
  let s1 := r1.takeWhile isSpaceC
  let r2 := r1.dropWhile isSpaceC
  if s1.isEmpty then none else
  match r2 with
  | c1 :: c2 :: r3 =>
    if lowerC c1 == 'd' && lowerC c2 == 'e' then
      let s2 := r3.takeWhile isSpaceC
      let r4 := r3.dropWhile isSpaceC
      if s2.isEmpty then none else
      let ws := r4.takeWhile isWordC
      let r5 := r4.dropWhile isWordC
      if ws.isEmpty then none else
      let s3 := r5.takeWhile isSpaceC
      let r6 := r5.dropWhile isSpaceC
      if s3.isEmpty then none else
      match r6 with
      | d1 :: d2 :: r7 =>
        if lowerC d1 == 'd' && lowerC d2 == 'e' then
          let s4 := r7.takeWhile isSpaceC
          let r8 := r7.dropWhile isSpaceC
          if s4.isEmpty then none else
          match r8 with
          | y1 :: y2 :: y3 :: y4 :: _ =>
            if isDigitC y1 && isDigitC y2 && isDigitC y3 && isDigitC y4 then
              some (ds, ws, [y1, y2, y3, y4])
            else none
          | _ => none
        else none
      | _ => none
    else none
  | _ => none

/-- Model of re.search for the date regex: try every start position from
the left and return the groups of the first successful attempt. -/
def reSearchDate (l : List Char) : Option (List Char × List Char × List Char) :=
  match matchFrom l with
  | some g => some g
  | none =>
    match l with
    | [] => none
    | _ :: t => reSearchDate t

/-- The relative-time keywords of app.py line 85. -/
def keywords : List (List Char) :=
  ["hoy".toList, "ayer".toList, "hora".toList, "minuto".toList]

/-- Whether pat occurs at the start of l. -/
def leadsWith : List Char → List Char → Bool
  | [], _ => true
  | _ :: _, [] => false
  | a :: ps, b :: ls => a == b && leadsWith ps ls

/-- Python substring containment (the in operator on str). -/
def hasSub (pat : List Char) : List Char → Bool
  | [] => leadsWith pat []
  | b :: t => leadsWith pat (b :: t) || hasSub pat t

/-- Lines 84-89 of app.py: the fallback after the regex path, applied to
the stripped input s.  On a relative-time keyword it returns the current
processing date, otherwise s unchanged. -/
def fallbackDate (today : CalDate) (s : List Char) : List Char :=
  if keywords.any (fun k => hasSub k (s.map lowerC)) then fmtYMD today else s

/-- parse_date_and_normalize (app.py lines 64-89).  The hidden
datetime.now dependency is the explicit parameter today.  The try/except
of lines 74-82 cannot fire in the model: int conversion of digit groups
and dict.get never raise.  A matched but unknown month name (month_num
None, falsy) falls through to the keyword fallback exactly as in the
source. -/
def parse_date_and_normalize (today : CalDate) (date_str : List Char) : List Char :=
  match reSearchDate (pyStrip date_str) with
  | some (ds, ws, ys) =>
    match lookupMonth (ws.map lowerC) with
    | some m => fmtGroups (digitsToNat ds) m (digitsToNat ys)
    | none => fallbackDate today (pyStrip date_str)
  | none => fallbackDate today (pyStrip date_str)

/-- Values that df columns feed to calculate_fiscal_month: NaT/NaN (where
pd.isna is true), a Timestamp, or any other value on which the day
attribute access raises (caught by the bare except of line 60). -/
inductive PdCell where
  | naT : PdCell
  | ts (d : CalDate) : PdCell
  | other : PdCell
deriving DecidableEq

/-- dateutil relativedelta(months=1) added to a date: the month is
incremented with December rolling into January of the next year, and the
day is clamped to the length of the target month. -/
def addOneMonth (d : CalDate) : CalDate :=
  let y := if d.month = 12 then d.year + 1 else d.year
  let m := if d.month = 12 then 1 else d.month + 1
  { year := y, month := m, day := min d.day (daysInMonth y m) }

/-- calculate_fiscal_month (app.py lines 43-61).  Note: in the source the
conditional is split over two lines (line 51 holds the condition, line 52
a bare colon), which Python rejects as a SyntaxError; the embedding takes
the evident intent, the single statement testing day > 14.  NaT returns
None via the pd.isna guard; a value without a day attribute raises and
the bare except returns None. -/
def calculate_fiscal_month (date_obj : PdCell) : Option (List Char) :=
  match date_obj with
  | PdCell.naT => none
  | PdCell.other => none
  | PdCell.ts d =>
    let adjusted := if d.day > 14 then addOneMonth d else d
    some (fmtYM adjusted.year adjusted.month)

/-- get_search_variations (app.py lines 21-40). -/
def get_search_variations (name_input : List Char) : List (List Char) :=
  let ni := pyStrip name_input
  match pySplit ni with
  | first_name :: second :: rest =>
    let surname := List.intercalate [' '] (second :: rest)
    let initial_var := first_name.take 1 ++ '.' :: ' ' :: surname
    let v1 := [ni] ++ (if initial_var ∈ [ni] then [] else [initial_var])
    v1 ++ (if surname ∈ v1 then [] else [surname])
  | _ => [ni]

/-- Lexicographic order on character lists by code point, the Python and
pandas ordering of strings (used by sort_index). -/
def lexLe : List Char → List Char → Bool
  | [], _ => true
  | _ :: _, [] => false
  | a :: as, b :: bs => if a < b then true else if a = b then lexLe as bs else false

/-- lexLe as a relation, for the sorting lemmas. -/
def lexLeP (a b : List Char) : Prop :=
  lexLe a b = true

instance : DecidableRel lexLeP := fun a b => by
  unfold lexLeP; infer_instance

/-- summarize_by_group (app.py lines 93-100) on the MONTH_GROUP column:
value_counts gives one entry per distinct value with its number of
occurrences, and sort_index orders the rows ascending by the key string.
An empty column gives the empty summary, as the empty-frame guard does. -/
def summarize_by_group (month_groups : List (List Char)) : List (List Char × Nat) :=
  (List.insertionSort lexLeP month_groups.dedup).map (fun k => (k, month_groups.count k))

/-- The mean of the Count column taken by create_monthly_plot_plotly
(app.py line 108), as an exact rational. -/
def average_count (summary : List (List Char × Nat)) : ℚ :=
  ((summary.map Prod.snd).sum : ℚ) / summary.length

/-
Scraping model.  The external HTTP fetch plus BeautifulSoup parsing is a
parameter: for one search term and page number it either fails with a
requests.exceptions.RequestException (timeout, connection error, or the
raise_for_status of a non-2xx response) or yields the parsed article
containers of the page.
-/

/-- One article container as the source reads it: the optional h1 link
(href and text) and the optional time.entry-date tag (text and optional
datetime attribute). -/
structure Container where
  link : Option (List Char × List Char)
  dateTag : Option (List Char × Option (List Char))
deriving DecidableEq

/-- Result of fetching one results page for one term. -/
inductive FetchResult where
  | fetchErr : FetchResult
  | pageOk (articles : List Container) : FetchResult
deriving DecidableEq

/-- One accumulated row of all_articles_data (app.py lines 229-235). -/
structure Record where
  TITLE : List Char
  DATE_NORMALIZED : List Char
  DATE_RAW : List Char
  URL : List Char
  FOUND_VIA : List Char
deriving DecidableEq

/-- The mutable state of scrape_lavoz_recursive: the accumulated rows and
the set of already seen urls. -/
structure ScrapeState where
  all_articles_data : List Record
  unique_links : Finset (List Char)

/-- The site domain (app.py line 16). -/
def DOMAIN : List Char :=
  "https://www.lavozdegalicia.es".toList

/-- Model of urllib.parse.urljoin at the call site: an absolute href is
kept, a relative one is resolved against the domain.  The claims treat
urls as opaque keys, so only this much of the external function is
modelled. -/
def urljoinModel (base rel : List Char) : List Char :=
  if leadsWith "http".toList rel then rel else base ++ rel

/-- The date_raw selection of app.py lines 218-224: the tag text when a
time.entry-date tag exists (else the placeholder), overridden by the
datetime attribute when present and longer than five characters. -/
def rawDateOf (c : Container) : List Char :=
  match c.dateTag with
  | none => "Date Not Found".toList
  | some (txt, none) => txt
  | some (txt, some a) => if a.length > 5 then a else txt

/-- Processing of one container (app.py lines 206-235): skip when the
title link is missing, skip when the url was already seen, otherwise
normalize the date and append the record while recording the url. -/
def processContainer (today : CalDate) (term : List Char) (st : ScrapeState)
    (c : Container) : ScrapeState :=
  match c.link with
  | none => st
  | some (href, title) =>
    let article_url := urljoinModel DOMAIN href
    if article_url ∈ st.unique_links then st
    else
      let date_raw := rawDateOf c
      { all_articles_data := st.all_articles_data ++
          [{ TITLE := title, DATE_NORMALIZED := parse_date_and_normalize today date_raw,
             DATE_RAW := date_raw, URL := article_url, FOUND_VIA := term }],
        unique_links := insert article_url st.unique_links }

/-- The inner page loop of scrape_lavoz_recursive (app.py lines 180-241)
for one term, from page_num with the given number of pages remaining.
Returns the final state and the list of page numbers actually fetched.
A RequestException or a page without containers breaks the loop after
that fetch. -/
def pageLoop (fetch : List Char → Nat → FetchResult) (today : CalDate)
    (term : List Char) : Nat → Nat → ScrapeState → ScrapeState × List Nat
  | _, 0, st => (st, [])
  | page_num, r + 1, st =>
    match fetch term page_num with
    | FetchResult.fetchErr => (st, [page_num])
    | FetchResult.pageOk [] => (st, [page_num])
    | FetchResult.pageOk (c :: cs) =>
      let res := pageLoop fetch today term (page_num + 1) r
        ((c :: cs).foldl (processContainer today term) st)
      (res.1, page_num :: res.2)

/-- The outer variant loop of scrape_lavoz_recursive (app.py lines
174-242): variants in order, pages 1..max_page each, one shared state.
Also returns the trace of (term, page) pairs fetched. -/
def scrapeLoop (fetch : List Char → Nat → FetchResult) (today : CalDate)
    (max_page : Nat) : List (List Char) → ScrapeState → ScrapeState × List (List Char × Nat)
  | [], st => (st, [])
  | term :: rest, st =>
    let r1 := pageLoop fetch today term 1 max_page st
    let r2 := scrapeLoop fetch today max_page rest r1.1
    (r2.1, r1.2.map (fun p => (term, p)) ++ r2.2)

/-- scrape_lavoz_recursive (app.py lines 156-243): the accumulated rows
over all variants and pages.  The Lean function is total, which models
the fact that the loop always terminates and returns the rows gathered
so far. -/
def scrape_lavoz_recursive (fetch : List Char → Nat → FetchResult) (today : CalDate)
    (search_variations : List (List Char)) (max_page : Nat) : List Record :=
  (scrapeLoop fetch today max_page search_variations
    { all_articles_data := [], unique_links := ∅ }).1.all_articles_data

/-- The page numbers the inner loop fetches for one term, starting at
page k with r pages remaining; depends only on the fetch outcomes. -/
def pagesVisited (fetch : List Char → Nat → FetchResult) (term : List Char) :
    Nat → Nat → List Nat
  | _, 0 => []
  | k, r + 1 =>
    match fetch term k with
    | FetchResult.fetchErr => [k]
    | FetchResult.pageOk [] => [k]
    | FetchResult.pageOk (_ :: _) => k :: pagesVisited fetch term (k + 1) r

/-- Whether the page loop continues past page p of term: only a
successful fetch with a nonempty container list does. -/
def continuesAt (fetch : List Char → Nat → FetchResult) (term : List Char) (p : Nat) : Bool :=
  match fetch term p with
  | FetchResult.pageOk (_ :: _) => true
  | FetchResult.pageOk [] => false
  | FetchResult.fetchErr => false

/-- The full fetch trace of a run, variant by variant. -/
def runTrace (fetch : List Char → Nat → FetchResult) (maxp : Nat) :
    List (List Char) → List (List Char × Nat)
  | [] => []
  | v :: vs => (pagesVisited fetch v 1 maxp).map (fun p => (v, p)) ++ runTrace fetch maxp vs

/-- The deduplicator step of the source (lines 213-214 and 228): admit a
url on first sight, refuse it afterwards. -/
def acceptUrl (url : List Char) (seen : Finset (List Char)) : Bool × Finset (List Char) :=
  if url ∈ seen then (false, seen) else (true, insert url seen)

/-
Model of the module-level 2025 filter (app.py lines 288-296).
-/

/-- Models the external pandas.to_datetime call of line 290 with
dayfirst=True and errors equal to coerce, per the documented pandas
behavior on the formats this pipeline produces: an ISO YYYY-MM-DD string
parses as year-month-day when it names a real calendar date, a slashed
DD/MM/YYYY string parses day first when real, and anything else
(including calendar-invalid strings) coerces to NaT, modelled as none. -/
def pd_to_datetime : List Char → Option CalDate
  | [a, b, c, d, '-', e, f, '-', g, h] =>
    if isDigitC a && isDigitC b && isDigitC c && isDigitC d && isDigitC e &&
       isDigitC f && isDigitC g && isDigitC h then
      let y := digitsToNat [a, b, c, d]
      let m := digitsToNat [e, f]
      let dd := digitsToNat [g, h]
      if isValidDate y m dd then some ⟨y, m, dd⟩ else none
    else none
  | [a, b, '/', c, d, '/', e, f, g, h] =>
    if isDigitC a && isDigitC b && isDigitC c && isDigitC d && isDigitC e &&
       isDigitC f && isDigitC g && isDigitC h then
      let dd := digitsToNat [a, b]
      let m := digitsToNat [c, d]
      let y := digitsToNat [e, f, g, h]
      if isValidDate y m dd then some ⟨y, m, dd⟩ else none
    else none
  | _ => none

/-- Lines 288-296 of app.py: convert DATE_NORMALIZED with pd.to_datetime
(coercing failures), drop the rows whose conversion failed, and keep the
rows with year at least 2025. -/
def module_date_filter (rows : List Record) : List Record :=
  rows.filterMap (fun r =>
    match pd_to_datetime r.DATE_NORMALIZED with
    | none => none
    | some d => if 2025 ≤ d.year then some r else none)

/-- From the words of the spec: the syntactic YYYY-MM-DD pattern (four
digits, dash, two digits, dash, two digits), with no calendar check. -/
def specDatePattern : List Char → Bool
  | [a, b, c, d, '-', e, f, '-', g, h] =>
    isDigitC a && isDigitC b && isDigitC c && isDigitC d && isDigitC e &&
    isDigitC f && isDigitC g && isDigitC h
  | _ => false

/-- From the words of the spec: a valid ISO calendar date string, the
syntactic YYYY-MM-DD pattern naming a real calendar date. -/
def isValidISODateStr (l : List Char) : Bool :=
  match l with
  | [a, b, c, d, '-', e, f, '-', g, h] =>
    if isDigitC a && isDigitC b && isDigitC c && isDigitC d && isDigitC e &&
       isDigitC f && isDigitC g && isDigitC h then
      isValidDate (digitsToNat [a, b, c, d]) (digitsToNat [e, f]) (digitsToNat [g, h])
    else false
  | _ => false

/-
Helper lemmas.
-/

/-- Every value of the month dictionary lies in 1..12. -/
lemma lookupMonth_bounds {k : List Char} {m : Nat} (h : lookupMonth k = some m) :
    1 ≤ m ∧ m ≤ 12 := by
  unfold lookupMonth at h
  rcases Option.map_eq_some'.mp h with ⟨p, hp, hpm⟩
  have hmem := List.mem_of_find?_eq_some hp
  rw [← hpm]
  simp only [spanish_months, List.mem_cons, List.not_mem_nil, or_false] at hmem
  rcases hmem with rfl | rfl | rfl | rfl | rfl | rfl | rfl | rfl | rfl | rfl | rfl | rfl <;> decide

/-- lexLeP is total. -/
lemma lexLe_total : ∀ a b : List Char, lexLeP a b ∨ lexLeP b a := by
  intro a
  induction a with
  | nil => intro b; exact Or.inl rfl
  | cons x xs ih =>
    intro b
    cases b with
    | nil => exact Or.inr rfl
    | cons y ys =>
      rcases lt_trichotomy x y with h | h | h
      · left; unfold lexLeP lexLe; rw [if_pos h]
      · subst h
        rcases ih ys with h2 | h2
        · left; unfold lexLeP lexLe
          rw [if_neg (lt_irrefl x), if_pos rfl]; exact h2
        · right; unfold lexLeP lexLe
          rw [if_neg (lt_irrefl x), if_pos rfl]; exact h2
      · right; unfold lexLeP lexLe; rw [if_pos h]

/-- lexLeP is transitive. -/
lemma lexLe_trans : ∀ a b c : List Char, lexLeP a b → lexLeP b c → lexLeP a c := by
  intro a
  induction a with
  | nil => intro b c _ _; exact rfl
  | cons x xs ih =>
    intro b c hab hbc
    cases b with
    | nil => exact absurd hab (by unfold lexLeP lexLe; simp)
    | cons y ys =>
      cases c with
      | nil => exact absurd hbc (by unfold lexLeP lexLe; simp)
      | cons z zs =>
        unfold lexLeP lexLe at hab hbc ⊢
        by_cases hxy : x < y
        · by_cases hyz : y < z
          · rw [if_pos (lt_trans hxy hyz)]
          · by_cases hyzEq : y = z
            · subst hyzEq; rw [if_pos hxy]
            · rw [if_neg hyz, if_neg hyzEq] at hbc; exact absurd hbc (by simp)
        · by_cases hxyEq : x = y
          · subst hxyEq
            rw [if_neg (lt_irrefl x), if_pos rfl] at hab
            by_cases hxz : x < z
            · rw [if_pos hxz]
            · by_cases hxzEq : x = z
              · subst hxzEq
                rw [if_neg (lt_irrefl x), if_pos rfl] at hbc ⊢
                exact ih ys zs hab hbc
              · rw [if_neg hxz, if_neg hxzEq] at hbc; exact absurd hbc (by simp)
          · rw [if_neg hxy, if_neg hxyEq] at hab; exact absurd hab (by simp)

instance : IsTotal (List Char) lexLeP :=
  ⟨lexLe_total⟩

instance : IsTrans (List Char) lexLeP :=
  ⟨lexLe_trans⟩

/-- When the token list of the stripped input has fewer than two tokens,
get_search_variations returns only the stripped term. -/
lemma gsv_single (s : List Char) (h : (pySplit (pyStrip s)).length < 2) :
    get_search_variations s = [pyStrip s] := by
  unfold get_search_variations
  rcases hp : pySplit (pyStrip s) with _ | ⟨x, _ | ⟨y, t⟩⟩
  · simp [hp]
  · simp [hp]
  · rw [hp] at h; simp at h; omega

/-
Claims.
-/

/-- C10: calculate_fiscal_month is total: NaT/NaN yields None, a value
whose day access or formatting raises yields None via the bare except,
and every Timestamp yields some bucket string.  (The embedding repairs
the split conditional of lines 51-52, a Python SyntaxError as written,
which is the code bug this claim runs into.) -/
theorem c10_fiscal_total :
    calculate_fiscal_month PdCell.naT = none
    ∧ calculate_fiscal_month PdCell.other = none
    ∧ ∀ d : CalDate, ∃ s, calculate_fiscal_month (PdCell.ts d) = some s :=
  ⟨rfl, rfl, fun _ => ⟨_, rfl⟩⟩

/-- C1 counterexample: with the claimed cutoff 15, the date 2025-10-15
should stay in bucket 2025-10; the code puts it in 2025-11 because its
conditional tests day > 14. -/
theorem c1_counterexample :
    calculate_fiscal_month (PdCell.ts ⟨2025, 10, 15⟩) = some ("2025-11".toList)
    ∧ calculate_fiscal_month (PdCell.ts ⟨2025, 10, 15⟩) ≠ some ("2025-10".toList) := by
  constructor
  · decide
  · decide

/-- C1 amended: the cutoff is 14, not 15: day > 14 yields the next
calendar month (December rolling into January of the next year) and
day ≤ 14 the current month; hence 2025-10-15 → 2025-11,
2025-10-16 → 2025-11, 2025-12-20 → 2026-01. -/
theorem c1_fiscal_cutoff_amended :
    calculate_fiscal_month (PdCell.ts ⟨2025, 10, 15⟩) = some ("2025-11".toList)
    ∧ calculate_fiscal_month (PdCell.ts ⟨2025, 10, 16⟩) = some ("2025-11".toList)
    ∧ calculate_fiscal_month (PdCell.ts ⟨2025, 12, 20⟩) = some ("2026-01".toList)
    ∧ ∀ y m d : Nat, 1 ≤ m → m ≤ 12 →
        (d ≤ 14 → calculate_fiscal_month (PdCell.ts ⟨y, m, d⟩) = some (fmtYM y m))
        ∧ (14 < d → m < 12 → calculate_fiscal_month (PdCell.ts ⟨y, m, d⟩) = some (fmtYM y (m + 1)))
        ∧ (14 < d → m = 12 → calculate_fiscal_month (PdCell.ts ⟨y, m, d⟩) = some (fmtYM (y + 1) 1)) := by
  refine ⟨by decide, by decide, by decide, ?_⟩
  intro y m d h1 h2
  refine ⟨?_, ?_, ?_⟩
  · intro hd
    simp [calculate_fiscal_month, show ¬ (14 < d) from by omega]
  · intro hd hm
    simp [calculate_fiscal_month, addOneMonth, hd, show ¬ (m = 12) from by omega]
  · intro hd hm
    subst hm
    simp [calculate_fiscal_month, addOneMonth, hd]

/-- C1 witness: the December rollover instance of the amended theorem. -/
theorem c1_witness :
    (1 ≤ 12 ∧ (12 : Nat) ≤ 12 ∧ 14 < 20)
    ∧ calculate_fiscal_month (PdCell.ts ⟨2025, 12, 20⟩) = some (fmtYM 2026 1) :=
  ⟨⟨by decide, by decide, by decide⟩,
    ((c1_fiscal_cutoff_amended.2.2.2 2025 12 20 (by decide) (by decide)).2.2 (by decide) rfl)⟩

/-- C2 counterexample: the input 31 de febrero de 2025 normalizes to
2025-02-31, which is neither a valid ISO calendar date nor the trimmed
input. -/
theorem c2_counterexample :
    ¬ (isValidISODateStr (parse_date_and_normalize ⟨2025, 10, 16⟩ ("31 de febrero de 2025".toList)) = true
       ∨ parse_date_and_normalize ⟨2025, 10, 16⟩ ("31 de febrero de 2025".toList)
           = pyStrip ("31 de febrero de 2025".toList)) := by
  decide

/-- C2 amended: the normalizer output is the current processing date, or
a string assembled as year-month-day from the matched groups with the
month in 1..12 but the day and year unvalidated against the calendar, or
exactly the trimmed raw input. -/
theorem c2_normalizer_shape_amended :
    ∀ (today : CalDate) (raw : List Char),
      parse_date_and_normalize today raw = fmtYMD today
      ∨ (∃ ds ws ys m, reSearchDate (pyStrip raw) = some (ds, ws, ys)
          ∧ lookupMonth (ws.map lowerC) = some m ∧ 1 ≤ m ∧ m ≤ 12
          ∧ parse_date_and_normalize today raw = fmtGroups (digitsToNat ds) m (digitsToNat ys))
      ∨ parse_date_and_normalize today raw = pyStrip raw := by
  intro today raw
  rcases hr : reSearchDate (pyStrip raw) with _ | ⟨ds, ws, ys⟩
  · by_cases hk : keywords.any (fun k => hasSub k ((pyStrip raw).map lowerC)) = true
    · exact Or.inl (by simp only [parse_date_and_normalize, fallbackDate, hr, if_pos hk])
    · exact Or.inr (Or.inr
        (by simp only [parse_date_and_normalize, fallbackDate, hr, if_neg hk]))
  · rcases hl : lookupMonth (ws.map lowerC) with _ | m
    · by_cases hk : keywords.any (fun k => hasSub k ((pyStrip raw).map lowerC)) = true
      · exact Or.inl
          (by simp only [parse_date_and_normalize, fallbackDate, hr, hl, if_pos hk])
      · exact Or.inr (Or.inr
          (by simp only [parse_date_and_normalize, fallbackDate, hr, hl, if_neg hk]))
    · exact Or.inr (Or.inl ⟨ds, ws, ys, m, rfl, hl,
        (lookupMonth_bounds hl).1, (lookupMonth_bounds hl).2,
        by simp only [parse_date_and_normalize, hr, hl]⟩)

/-- C4 counterexample: records matching the syntactic YYYY-MM-DD pattern
are nevertheless discarded by the module filter: a valid 2024 date falls
to the year restriction, and a calendar-invalid 2025-02-30 is coerced to
NaT and dropped instead of being retained. -/
theorem c4_counterexample :
    (specDatePattern ("2024-05-10".toList) = true
      ∧ module_date_filter
          [{ TITLE := "t".toList, DATE_NORMALIZED := "2024-05-10".toList,
             DATE_RAW := "r".toList, URL := "u".toList, FOUND_VIA := "v".toList }] = [])
    ∧ (specDatePattern ("2025-02-30".toList) = true
      ∧ module_date_filter
          [{ TITLE := "t".toList, DATE_NORMALIZED := "2025-02-30".toList,
             DATE_RAW := "r".toList, URL := "u".toList, FOUND_VIA := "v".toList }] = []) := by
  decide

/-- C2 witness: the amended shape instantiated at a concrete input. -/
theorem c2_witness :
    parse_date_and_normalize ⟨2025, 10, 16⟩ ("garbage-unparseable".toList) = fmtYMD ⟨2025, 10, 16⟩
    ∨ (∃ ds ws ys m,
        reSearchDate (pyStrip ("garbage-unparseable".toList)) = some (ds, ws, ys)
        ∧ lookupMonth (ws.map lowerC) = some m ∧ 1 ≤ m ∧ m ≤ 12
        ∧ parse_date_and_normalize ⟨2025, 10, 16⟩ ("garbage-unparseable".toList)
            = fmtGroups (digitsToNat ds) m (digitsToNat ys))
    ∨ parse_date_and_normalize ⟨2025, 10, 16⟩ ("garbage-unparseable".toList)
        = pyStrip ("garbage-unparseable".toList) :=
  c2_normalizer_shape_amended ⟨2025, 10, 16⟩ ("garbage-unparseable".toList)

/-- C4 amended: the module filter retains exactly the records whose
normalized date pandas parses as a real calendar date (full calendar
validation, day-first for slashed inputs) with year at least 2025. -/
theorem c4_filter_amended :
    ∀ (rows : List Record) (r : Record),
      r ∈ module_date_filter rows
        ↔ r ∈ rows ∧ ∃ d, pd_to_datetime r.DATE_NORMALIZED = some d ∧ 2025 ≤ d.year := by
  intro rows r
  unfold module_date_filter
  rw [List.mem_filterMap]
  constructor
  · rintro ⟨a, ha, hf⟩
    rcases hd : pd_to_datetime a.DATE_NORMALIZED with _ | d
    · rw [hd] at hf; exact absurd hf (by simp)
    · rw [hd] at hf
      simp only at hf
      split_ifs at hf with hy
      injection hf with h
      subst h
      exact ⟨ha, d, hd, hy⟩
  · rintro ⟨hr, d, hd, hy⟩
    exact ⟨r, hr, by rw [hd]; simp [hy]⟩

/-- C4 witness: a valid 2025 record passes the amended filter. -/
theorem c4_witness :
    ({ TITLE := "t".toList, DATE_NORMALIZED := "2025-10-16".toList, DATE_RAW := "r".toList,
       URL := "u".toList, FOUND_VIA := "v".toList } : Record)
      ∈ module_date_filter
        [{ TITLE := "t".toList, DATE_NORMALIZED := "2025-10-16".toList, DATE_RAW := "r".toList,
           URL := "u".toList, FOUND_VIA := "v".toList }] :=
  (c4_filter_amended _ _).mpr ⟨by simp, ⟨2025, 10, 16⟩, by decide, by decide⟩

/-- C6: on the example column the summary is one row per bucket with its
count, sorted ascending, with mean 3/2; in general the summary rows are
sorted ascending by key, have pairwise distinct keys, and carry exactly
the occurrence count of their key. -/
theorem c6_aggregation :
    summarize_by_group ["2025-01".toList, "2025-01".toList, "2025-02".toList]
        = [("2025-01".toList, 2), ("2025-02".toList, 1)]
    ∧ average_count (summarize_by_group ["2025-01".toList, "2025-01".toList, "2025-02".toList]) = 3 / 2
    ∧ (∀ l, ((summarize_by_group l).map Prod.fst).Sorted lexLeP)
    ∧ (∀ l, ((summarize_by_group l).map Prod.fst).Nodup)
    ∧ (∀ l k c, (k, c) ∈ summarize_by_group l → c = l.count k)
    ∧ (∀ l k, k ∈ l → (k, l.count k) ∈ summarize_by_group l) := by
  have hconc : summarize_by_group ["2025-01".toList, "2025-01".toList, "2025-02".toList]
      = [("2025-01".toList, 2), ("2025-02".toList, 1)] := by decide
  refine ⟨hconc, ?_, ?_, ?_, ?_, ?_⟩
  · rw [hconc]; unfold average_count; norm_num
  · intro l
    have hs := List.sorted_insertionSort lexLeP l.dedup
    unfold summarize_by_group
    simpa [List.map_map, Function.comp_def] using hs
  · intro l
    have hn : (List.insertionSort lexLeP l.dedup).Nodup :=
      (List.perm_insertionSort lexLeP l.dedup).symm.nodup (List.nodup_dedup l)
    unfold summarize_by_group
    simpa [List.map_map, Function.comp_def] using hn
  · intro l k c h
    unfold summarize_by_group at h
    rw [List.mem_map] at h
    obtain ⟨a, _, hpair⟩ := h
    obtain ⟨rfl, rfl⟩ := Prod.mk.injEq .. |>.mp hpair
    rfl
  · intro l k hk
    unfold summarize_by_group
    rw [List.mem_map]
    refine ⟨k, ?_, rfl⟩
    rw [(List.perm_insertionSort lexLeP l.dedup).mem_iff, List.mem_dedup]
    exact hk

/-- C6 witness: the membership part applied to the example column. -/
theorem c6_witness :
    ("2025-01".toList ∈ ["2025-01".toList, "2025-01".toList, "2025-02".toList])
    ∧ ("2025-01".toList, 2) ∈ summarize_by_group
        ["2025-01".toList, "2025-01".toList, "2025-02".toList] :=
  ⟨by decide, c6_aggregation.2.2.2.2.2 _ _ (by decide)⟩

/-- C7: the example expands to the full name, the initialed surname and
the bare surname in order; an input with fewer than two whitespace
tokens yields only the (stripped) term, hence exactly the original term
for an input with no surrounding whitespace. -/
theorem c7_variant_expansion :
    get_search_variations ("CLAUDIA ZAPATER".toList)
        = ["CLAUDIA ZAPATER".toList, "C. ZAPATER".toList, "ZAPATER".toList]
    ∧ (∀ s : List Char, (pySplit (pyStrip s)).length < 2 →
        get_search_variations s = [pyStrip s])
    ∧ (∀ s : List Char, (pySplit s).length < 2 → pyStrip s = s →
        get_search_variations s = [s]) := by
  refine ⟨by decide, fun s h => gsv_single s h, ?_⟩
  intro s h hs
  have h2 : (pySplit (pyStrip s)).length < 2 := by rw [hs]; exact h
  rw [gsv_single s h2, hs]

/-- C7 witness: the single-token instance. -/
theorem c7_witness :
    (pySplit ("ZAPATER".toList)).length < 2
    ∧ pyStrip ("ZAPATER".toList) = "ZAPATER".toList
    ∧ get_search_variations ("ZAPATER".toList) = ["ZAPATER".toList] :=
  ⟨by decide, by decide, c7_variant_expansion.2.2 _ (by decide) (by decide)⟩

/-- C8: ayer and hoy both normalize to the current processing date; in
general any input the date regex does not match whose lowercased trimmed
form contains one of the relative-time keywords returns the current
processing date. -/
theorem c8_relative_idioms :
    ∀ today : CalDate,
      parse_date_and_normalize today ("ayer".toList) = fmtYMD today
      ∧ parse_date_and_normalize today ("hoy".toList) = fmtYMD today
      ∧ ∀ s : List Char, reSearchDate (pyStrip s) = none →
          keywords.any (fun k => hasSub k ((pyStrip s).map lowerC)) = true →
          parse_date_and_normalize today s = fmtYMD today := by
  intro today
  refine ⟨rfl, rfl, ?_⟩
  intro s h1 h2
  unfold parse_date_and_normalize fallbackDate
  rw [h1]
  simp only
  rw [if_pos h2]

/-
Deduplication invariant (claim C5).
-/

/-- The invariant of the scrape state: accumulated urls are pairwise
distinct and every accumulated url is recorded in unique_links. -/
def GoodState (st : ScrapeState) : Prop :=
  (st.all_articles_data.map Record.URL).Nodup
  ∧ ∀ r ∈ st.all_articles_data, r.URL ∈ st.unique_links

/-- The deduplicator step always ends with the url recorded. -/
lemma acceptUrl_snd (u : List Char) (s : Finset (List Char)) :
    (acceptUrl u s).2 = insert u s := by
  unfold acceptUrl
  split_ifs with h
  · exact (Finset.insert_eq_self.mpr h).symm
  · rfl

/-- Folding the deduplicator over a list accumulates exactly the set of
its elements. -/
lemma foldl_acceptUrl (l : List (List Char)) : ∀ s : Finset (List Char),
    l.foldl (fun s u => (acceptUrl u s).2) s = s ∪ l.toFinset := by
  induction l with
  | nil => intro s; simp
  | cons a t ih =>
    intro s
    rw [List.foldl_cons, acceptUrl_snd, ih, List.toFinset_cons, Finset.insert_union,
      Finset.union_insert]

/-- Processing one container preserves the invariant. -/
lemma processContainer_good (today : CalDate) (term : List Char) (c : Container)
    {st : ScrapeState} (h : GoodState st) :
    GoodState (processContainer today term st c) := by
  obtain ⟨h1, h2⟩ := h
  cases hcl : c.link with
  | none =>
    unfold GoodState
    simp only [processContainer, hcl]
    exact ⟨h1, h2⟩
  | some p =>
    obtain ⟨href, title⟩ := p
    unfold GoodState
    simp only [processContainer, hcl]
    by_cases hm : urljoinModel DOMAIN href ∈ st.unique_links
    · simp only [if_pos hm]
      exact ⟨h1, h2⟩
    · simp only [if_neg hm]
      constructor
      · rw [List.map_append, List.nodup_append]
        refine ⟨h1, by simp, ?_⟩
        intro x hx hx2
        simp only [List.map_cons, List.map_nil, List.mem_singleton] at hx2
        subst hx2
        rcases List.mem_map.mp hx with ⟨r, hrmem, hru⟩
        exact hm (hru ▸ h2 r hrmem)
      · intro r hr
        rcases List.mem_append.mp hr with hold | hnew
        · exact Finset.mem_insert_of_mem (h2 r hold)
        · simp only [List.mem_singleton] at hnew
          subst hnew
          exact Finset.mem_insert_self _ _

/-- Processing a page of containers preserves the invariant. -/
lemma foldl_containers_good (today : CalDate) (term : List Char) (cs : List Container) :
    ∀ {st : ScrapeState}, GoodState st →
      GoodState (cs.foldl (processContainer today term) st) := by
  induction cs with
  | nil => intro st h; exact h
  | cons c t ih =>
    intro st h
    rw [List.foldl_cons]
    exact ih (processContainer_good today term c h)

/-- The page loop preserves the invariant. -/
lemma pageLoop_good (fetch : List Char → Nat → FetchResult) (today : CalDate)
    (term : List Char) : ∀ (r k : Nat) {st : ScrapeState}, GoodState st →
      GoodState (pageLoop fetch today term k r st).1 := by
  intro r
  induction r with
  | zero => intro k st h; exact h
  | succ n ih =>
    intro k st h
    cases hf : fetch term k with
    | fetchErr => simpa [pageLoop, hf] using h
    | pageOk cs =>
      cases cs with
      | nil => simpa [pageLoop, hf] using h
      | cons c t =>
        have hg := ih (k + 1) (foldl_containers_good today term (c :: t) h)
        simpa [pageLoop, hf] using hg

/-- The variant loop preserves the invariant. -/
lemma scrapeLoop_good (fetch : List Char → Nat → FetchResult) (today : CalDate)
    (maxp : Nat) : ∀ (vars : List (List Char)) {st : ScrapeState}, GoodState st →
      GoodState (scrapeLoop fetch today maxp vars st).1 := by
  intro vars
  induction vars with
  | nil => intro st h; exact h
  | cons v vs ih =>
    intro st h
    simp only [scrapeLoop]
    exact ih (pageLoop_good fetch today v maxp 1 h)

/-- C5: over any fetch behavior, variants and page budget, the urls of
the accumulated output are pairwise distinct; the deduplicator admits a
fresh url and refuses its second admission; folding it over N distinct
urls yields a set of size N, and the final set does not depend on the
admission order. -/
theorem c5_url_dedup :
    (∀ (fetch : List Char → Nat → FetchResult) (today : CalDate)
        (vars : List (List Char)) (maxp : Nat),
        ((scrape_lavoz_recursive fetch today vars maxp).map Record.URL).Nodup)
    ∧ (∀ (u : List Char) (s : Finset (List Char)), u ∉ s →
        (acceptUrl u s).1 = true ∧ (acceptUrl u (acceptUrl u s).2).1 = false)
    ∧ (∀ l : List (List Char), l.Nodup →
        (l.foldl (fun s u => (acceptUrl u s).2) ∅).card = l.length)
    ∧ (∀ l l2 : List (List Char), l.Perm l2 →
        l.foldl (fun s u => (acceptUrl u s).2) ∅
          = l2.foldl (fun s u => (acceptUrl u s).2) ∅) := by
  refine ⟨?_, ?_, ?_, ?_⟩
  · intro fetch today vars maxp
    have hinit : GoodState { all_articles_data := [], unique_links := ∅ } :=
      ⟨by simp, by intro r hr; cases hr⟩
    exact (scrapeLoop_good fetch today maxp vars hinit).1
  · intro u s hu
    constructor
    · unfold acceptUrl; rw [if_neg hu]
    · rw [acceptUrl_snd]
      unfold acceptUrl
      rw [if_pos (Finset.mem_insert_self u s)]
  · intro l hl
    rw [foldl_acceptUrl, Finset.empty_union, List.toFinset_card_of_nodup hl]
  · intro l l2 hp
    rw [foldl_acceptUrl, foldl_acceptUrl, List.toFinset_eq_of_perm _ _ hp]

/-- C5 witness: a fresh url is admitted once, and two distinct urls give
a set of size two. -/
theorem c5_witness :
    ("a".toList ∉ (∅ : Finset (List Char)))
    ∧ ((acceptUrl ("a".toList) ∅).1 = true
        ∧ (acceptUrl ("a".toList) (acceptUrl ("a".toList) ∅).2).1 = false)
    ∧ ([("a".toList), ("b".toList)] : List (List Char)).Nodup
    ∧ ([("a".toList), ("b".toList)].foldl (fun s u => (acceptUrl u s).2) ∅).card = 2 := by
  refine ⟨Finset.not_mem_empty _, c5_url_dedup.2.1 _ _ (Finset.not_mem_empty _), by decide, ?_⟩
  have h := c5_url_dedup.2.2.1 [("a".toList), ("b".toList)] (by decide)
  simpa using h

/-
Trace of the orchestrator (claim C9).
-/

/-- The trace of the page loop equals pagesVisited, independently of the
accumulated state. -/
lemma pageLoop_trace (fetch : List Char → Nat → FetchResult) (today : CalDate)
    (term : List Char) : ∀ (r k : Nat) (st : ScrapeState),
      (pageLoop fetch today term k r st).2 = pagesVisited fetch term k r := by
  intro r
  induction r with
  | zero => intro k st; rfl
  | succ n ih =>
    intro k st
    cases hf : fetch term k with
    | fetchErr => simp [pageLoop, pagesVisited, hf]
    | pageOk cs =>
      cases cs with
      | nil => simp [pageLoop, pagesVisited, hf]
      | cons c t => simp [pageLoop, pagesVisited, hf, ih]

/-- The trace of the whole run splits variant by variant, independently
of the accumulated state. -/
lemma scrapeLoop_trace (fetch : List Char → Nat → FetchResult) (today : CalDate)
    (maxp : Nat) : ∀ (vars : List (List Char)) (st : ScrapeState),
      (scrapeLoop fetch today maxp vars st).2 = runTrace fetch maxp vars := by
  intro vars
  induction vars with
  | nil => intro st; rfl
  | cons v vs ih =>
    intro st
    simp [scrapeLoop, runTrace, pageLoop_trace, ih]

/-- Characterization of the fetched pages of one term: page q is fetched
exactly when it lies in the budget window and every earlier page of the
window was fetched successfully with a nonempty container list. -/
lemma mem_pagesVisited (fetch : List Char → Nat → FetchResult) (term : List Char) :
    ∀ (r k q : Nat), q ∈ pagesVisited fetch term k r
      ↔ (k ≤ q ∧ q < k + r ∧ ∀ j, k ≤ j → j < q → continuesAt fetch term j = true) := by
  intro r
  induction r with
  | zero =>
    intro k q
    simp only [pagesVisited, List.not_mem_nil, false_iff]
    rintro ⟨h1, h2, _⟩
    omega
  | succ n ih =>
    intro k q
    cases hf : fetch term k with
    | fetchErr =>
      simp only [pagesVisited, hf, List.mem_singleton]
      constructor
      · rintro rfl
        exact ⟨le_refl q, by omega, fun j hj1 hj2 => absurd hj1 (by omega)⟩
      · rintro ⟨hq1, hq2, hq3⟩
        by_cases hqk : q = k
        · exact hqk
        · have hcont := hq3 k (le_refl k) (by omega)
          unfold continuesAt at hcont
          rw [hf] at hcont
          simp at hcont
    | pageOk cs =>
      cases cs with
      | nil =>
        simp only [pagesVisited, hf, List.mem_singleton]
        constructor
        · rintro rfl
          exact ⟨le_refl q, by omega, fun j hj1 hj2 => absurd hj1 (by omega)⟩
        · rintro ⟨hq1, hq2, hq3⟩
          by_cases hqk : q = k
          · exact hqk
          · have hcont := hq3 k (le_refl k) (by omega)
            unfold continuesAt at hcont
            rw [hf] at hcont
            simp at hcont
      | cons c t =>
        have hcont : continuesAt fetch term k = true := by
          unfold continuesAt; rw [hf]
        simp only [pagesVisited, hf, List.mem_cons]
        rw [ih (k + 1) q]
        constructor
        · rintro (rfl | ⟨h1, h2, h3⟩)
          · exact ⟨le_refl q, by omega, fun j hj1 hj2 => absurd hj1 (by omega)⟩
          · refine ⟨by omega, by omega, fun j hj1 hj2 => ?_⟩
            rcases Nat.eq_or_lt_of_le hj1 with rfl | hlt
            · exact hcont
            · exact h3 j (by omega) hj2
        · rintro ⟨h1, h2, h3⟩
          by_cases hqk : q = k
          · exact Or.inl hqk
          · exact Or.inr ⟨by omega, by omega, fun j hj1 hj2 => h3 j (by omega) hj2⟩

/-- C9: the full fetch trace is the concatenation of the per-variant
traces, independent of the accumulated state, so a failure inside one
variant never removes the pages of the following variants; after a
RequestException on page p of a term, no later page of that term is
fetched; and every variant still fetches its first page.  Totality of
the model functions renders the guarantee that the run terminates and
returns the rows gathered so far. -/
theorem c9_fetch_failure_policy :
    (∀ (fetch : List Char → Nat → FetchResult) (today : CalDate) (maxp : Nat)
        (vars : List (List Char)) (st : ScrapeState),
        (scrapeLoop fetch today maxp vars st).2 = runTrace fetch maxp vars)
    ∧ (∀ (fetch : List Char → Nat → FetchResult) (term : List Char) (maxp p q : Nat),
        1 ≤ p → fetch term p = FetchResult.fetchErr → p < q →
        q ∉ pagesVisited fetch term 1 maxp)
    ∧ (∀ (fetch : List Char → Nat → FetchResult) (term : List Char) (maxp : Nat),
        1 ≤ maxp → 1 ∈ pagesVisited fetch term 1 maxp) := by
  refine ⟨fun fetch today maxp vars st => scrapeLoop_trace fetch today maxp vars st, ?_, ?_⟩
  · intro fetch term maxp p q hp hf hpq hmem
    rw [mem_pagesVisited] at hmem
    obtain ⟨h1, h2, h3⟩ := hmem
    have hcont := h3 p hp hpq
    unfold continuesAt at hcont
    rw [hf] at hcont
    simp at hcont
  · intro fetch term maxp h
    rw [mem_pagesVisited]
    exact ⟨le_refl 1, by omega, fun j hj1 hj2 => absurd hj1 (by omega)⟩

/-- A concrete fetcher whose page 1 succeeds and whose later pages fail. -/
def demoFetch : List Char → Nat → FetchResult := fun _ p =>
  if p = 1 then FetchResult.pageOk [{ link := some ("u".toList, "t".toList), dateTag := none }]
  else FetchResult.fetchErr

/-- C9 witness: with the demo fetcher, page 2 of a term fails and page 4
is never fetched, while page 1 is. -/
theorem c9_witness :
    (1 ≤ 2 ∧ demoFetch ("X".toList) 2 = FetchResult.fetchErr ∧ 2 < 4)
    ∧ 4 ∉ pagesVisited demoFetch ("X".toList) 1 5
    ∧ 1 ∈ pagesVisited demoFetch ("X".toList) 1 5 :=
  ⟨⟨by decide, by decide, by decide⟩,
    c9_fetch_failure_policy.2.1 demoFetch _ 5 2 4 (by decide) (by decide) (by decide),
    c9_fetch_failure_policy.2.2 demoFetch ("X".toList) 5 (by decide)⟩

/-- C8 witness: a relative-time idiom with no regex match. -/
theorem c8_witness :
    (reSearchDate (pyStrip ("hace 2 horas".toList)) = none)
    ∧ (keywords.any (fun k => hasSub k ((pyStrip ("hace 2 horas".toList)).map lowerC)) = true)
    ∧ parse_date_and_normalize ⟨2025, 10, 16⟩ ("hace 2 horas".toList) = fmtYMD ⟨2025, 10, 16⟩ :=
  ⟨by decide, by decide, (c8_relative_idioms ⟨2025, 10, 16⟩).2.2 _ (by decide) (by decide)⟩

/-
Claim C3: the regex path on well-formed Spanish dates.
-/

/-- takeWhile over a run of satisfying characters stops at the first
failing one. -/
lemma takeWhile_run (p : Char → Bool) (xs : List Char) (b : Char) (bs : List Char)
    (hxs : ∀ c ∈ xs, p c = true) (hb : p b = false) :
    (xs ++ b :: bs).takeWhile p = xs := by
  induction xs with
  | nil => simp [List.takeWhile_cons, hb]
  | cons a t ih =>
    have ha : p a = true := hxs a (by simp)
    have ih2 := ih (fun c hc => hxs c (by simp [hc]))
    simp [List.takeWhile_cons, ha, ih2]

/-- dropWhile over a run of satisfying characters stops at the first
failing one. -/
lemma dropWhile_run (p : Char → Bool) (xs : List Char) (b : Char) (bs : List Char)
    (hxs : ∀ c ∈ xs, p c = true) (hb : p b = false) :
    (xs ++ b :: bs).dropWhile p = b :: bs := by
  induction xs with
  | nil => simp [List.dropWhile_cons, hb]
  | cons a t ih =>
    have ha : p a = true := hxs a (by simp)
    have ih2 := ih (fun c hc => hxs c (by simp [hc]))
    simp [List.dropWhile_cons, ha, ih2]

/-- Whitespace characters are neither digits nor word characters. -/
lemma space_not_digit_word {c : Char} (h : isSpaceC c = true) :
    isDigitC c = false ∧ isWordC c = false := by
  unfold isSpaceC at h
  simp only [Bool.or_eq_true, beq_iff_eq] at h
  rcases h with ((((rfl | rfl) | rfl) | rfl) | rfl) | rfl <;> exact ⟨by decide, by decide⟩

/-- Digits are not whitespace. -/
lemma digit_not_space {c : Char} (h : isDigitC c = true) : isSpaceC c = false := by
  cases hs : isSpaceC c
  · rfl
  · rw [(space_not_digit_word hs).1] at h
    simp at h

/-- Word characters are not whitespace. -/
lemma word_not_space {c : Char} (h : isWordC c = true) : isSpaceC c = false := by
  cases hs : isSpaceC c
  · rfl
  · rw [(space_not_digit_word hs).2] at h
    simp at h

/-- Stripping a list with non-space endpoints is the identity. -/
lemma pyStrip_id (a : Char) (mid : List Char) (b : Char)
    (ha : isSpaceC a = false) (hb : isSpaceC b = false) :
    pyStrip (a :: (mid ++ [b])) = a :: (mid ++ [b]) := by
  unfold pyStrip
  have h1 : (a :: (mid ++ [b])).dropWhile isSpaceC = a :: (mid ++ [b]) := by
    rw [List.dropWhile_cons]; simp [ha]
  rw [h1]
  have h2 : (a :: (mid ++ [b])).reverse = b :: (mid.reverse ++ [a]) := by simp
  rw [h2]
  have h3 : (b :: (mid.reverse ++ [a])).dropWhile isSpaceC = b :: (mid.reverse ++ [a]) := by
    rw [List.dropWhile_cons]; simp [hb]
  rw [h3]
  simp

/-- The anchored regex attempt succeeds on a well-formed Spanish date
with single spaces, extracting the three groups. -/
lemma matchFrom_spanish (d0 : Char) (ds : List Char) (w0 : Char) (ws : List Char)
    (y1 y2 y3 y4 : Char)
    (hd : ∀ c ∈ (d0 :: ds), isDigitC c = true)
    (hw : ∀ c ∈ (w0 :: ws), isWordC c = true)
    (hy1 : isDigitC y1 = true) (hy2 : isDigitC y2 = true)
    (hy3 : isDigitC y3 = true) (hy4 : isDigitC y4 = true) :
    matchFrom ((d0 :: ds) ++ ' ' :: 'd' :: 'e' :: ' ' ::
        ((w0 :: ws) ++ ' ' :: 'd' :: 'e' :: ' ' :: [y1, y2, y3, y4]))
      = some (d0 :: ds, w0 :: ws, [y1, y2, y3, y4]) := by
  have sY1 : isSpaceC y1 = false := digit_not_space hy1
  have A1 := takeWhile_run isDigitC (d0 :: ds) ' '
    ('d' :: 'e' :: ' ' :: ((w0 :: ws) ++ ' ' :: 'd' :: 'e' :: ' ' :: [y1, y2, y3, y4]))
    hd (by decide)
  have A2 := dropWhile_run isDigitC (d0 :: ds) ' '
    ('d' :: 'e' :: ' ' :: ((w0 :: ws) ++ ' ' :: 'd' :: 'e' :: ' ' :: [y1, y2, y3, y4]))
    hd (by decide)
  have hw2 : ∀ c ∈ ws, isWordC c = true := fun c hc => hw c (by simp [hc])
  have C1 := takeWhile_run isWordC ws ' ' ('d' :: 'e' :: ' ' :: [y1, y2, y3, y4])
    hw2 (by decide)
  have C2 := dropWhile_run isWordC ws ' ' ('d' :: 'e' :: ' ' :: [y1, y2, y3, y4])
    hw2 (by decide)
  have hw0 : isWordC w0 = true := hw w0 (by simp)
  have sW : isSpaceC w0 = false := word_not_space hw0
  simp only [matchFrom]
  rw [A1, A2]
  simp [List.takeWhile_cons, List.dropWhile_cons, C1, C2, sW, sY1, hw0, hy1, hy2, hy3, hy4,
    show isSpaceC ' ' = true from by decide, show isSpaceC 'd' = false from by decide,
    show lowerC 'd' = 'd' from by decide, show lowerC 'e' = 'e' from by decide]

/-- re.search succeeds at the very first position when the anchored
attempt there succeeds. -/
lemma reSearchDate_head {l : List Char} {g : List Char × List Char × List Char}
    (h : matchFrom l = some g) : reSearchDate l = some g := by
  cases l with
  | nil => simp [matchFrom] at h
  | cons a t => simp [reSearchDate, h]

/-- C3: every input of the shape day-digits, de, month word, de, four
year digits, with the lowercased month word a key of the dictionary,
normalizes to the f-string year, zero-padded month number, zero-padded
day number. -/
theorem c3_spanish_dates :
    ∀ (today : CalDate) (d0 : Char) (ds : List Char) (w0 : Char) (ws : List Char)
      (y1 y2 y3 y4 : Char) (m : Nat),
      (∀ c ∈ (d0 :: ds), isDigitC c = true) →
      (∀ c ∈ (w0 :: ws), isWordC c = true) →
      lookupMonth ((w0 :: ws).map lowerC) = some m →
      isDigitC y1 = true → isDigitC y2 = true → isDigitC y3 = true → isDigitC y4 = true →
      parse_date_and_normalize today
          ((d0 :: ds) ++ ' ' :: 'd' :: 'e' :: ' ' ::
            ((w0 :: ws) ++ ' ' :: 'd' :: 'e' :: ' ' :: [y1, y2, y3, y4]))
        = fmtGroups (digitsToNat (d0 :: ds)) m (digitsToNat [y1, y2, y3, y4]) := by
  intro today d0 ds w0 ws y1 y2 y3 y4 m hd hw hm hy1 hy2 hy3 hy4
  have hshape : (d0 :: ds) ++ ' ' :: 'd' :: 'e' :: ' ' ::
        ((w0 :: ws) ++ ' ' :: 'd' :: 'e' :: ' ' :: [y1, y2, y3, y4])
      = d0 :: ((ds ++ ' ' :: 'd' :: 'e' :: ' ' ::
          ((w0 :: ws) ++ ' ' :: 'd' :: 'e' :: ' ' :: [y1, y2, y3])) ++ [y4]) := by
    simp
  have hstrip : pyStrip ((d0 :: ds) ++ ' ' :: 'd' :: 'e' :: ' ' ::
        ((w0 :: ws) ++ ' ' :: 'd' :: 'e' :: ' ' :: [y1, y2, y3, y4]))
      = (d0 :: ds) ++ ' ' :: 'd' :: 'e' :: ' ' ::
        ((w0 :: ws) ++ ' ' :: 'd' :: 'e' :: ' ' :: [y1, y2, y3, y4]) := by
    rw [hshape]
    exact pyStrip_id d0 _ y4 (digit_not_space (hd d0 (by simp))) (digit_not_space hy4)
  have hsearch : reSearchDate (pyStrip ((d0 :: ds) ++ ' ' :: 'd' :: 'e' :: ' ' ::
        ((w0 :: ws) ++ ' ' :: 'd' :: 'e' :: ' ' :: [y1, y2, y3, y4])))
      = some (d0 :: ds, w0 :: ws, [y1, y2, y3, y4]) := by
    rw [hstrip]
    exact reSearchDate_head (matchFrom_spanish d0 ds w0 ws y1 y2 y3 y4 hd hw hy1 hy2 hy3 hy4)
  simp only [parse_date_and_normalize, hsearch, hm]

/-- C3 witness: the example of the spec. -/
theorem c3_witness :
    parse_date_and_normalize ⟨2025, 1, 1⟩
        (('1' :: ['8']) ++ ' ' :: 'd' :: 'e' :: ' ' ::
          (('j' :: "ulio".toList) ++ ' ' :: 'd' :: 'e' :: ' ' :: ['2', '0', '2', '5']))
      = "2025-07-18".toList := by
  have h := c3_spanish_dates ⟨2025, 1, 1⟩ '1' ['8'] 'j' ("ulio".toList) '2' '0' '2' '5' 7
    (by decide) (by decide) (by decide) (by decide) (by decide) (by decide) (by decide)
  rw [h]
  decide

end Lavoz
